import Mathlib

/-!
Verification of the `rocket_landing` package (model.py, cost_function.py,
solver.py) against its natural-language specification.

Modelling conventions:
* Python floats are embedded as exact rationals (`ℚ`); all arithmetic in the
  source is elementary, so every expression carries over verbatim.
* A Python `assert` failure (an abort) is embedded as `Option`/`Except`
  failure: a function that can hit an assertion returns `none` / `.error`
  exactly when the assertion would fire.
* `np.inf` in the cost functions is embedded by the dedicated type `Cost`
  with an absorbing element `Cost.inf`, mirroring IEEE `inf + finite = inf`.
* `np.arange(start, stop, step)` (step > 0) produces
  `start + i*step` for `i < ⌈(stop - start)/step⌉`; that is `arange` below.
* Array mutation in `populate_state_map` is embedded as an explicit,
  ordered write log; an assertion abort returns the writes performed
  before the abort (the partially populated tables).
-/

/-- The gravitational constant `6.6743e-11` used in `model.d2x_dt2`, as an
exact rational. -/
def grav_const : ℚ := 66743 / 10 ^ 15

/-- Embedding of `model.d2x_dt2(mass_planet, r_rocket, mass_rocket, thrust)`.
The source asserts `r_rocket > 0` and `mass_rocket > 0` and then returns
`-grav_const * mass_planet / r_rocket**2 + thrust / mass_rocket`;
a failed assertion aborts, embedded as `none`. -/
def d2x_dt2 (mass_planet r_rocket mass_rocket thrust : ℚ) : Option ℚ :=
  if 0 < r_rocket ∧ 0 < mass_rocket then
    some (-grav_const * mass_planet / r_rocket ^ 2 + thrust / mass_rocket)
  else
    none

/-- Embedding of `model.integrate(v_rocket, mass_planet, r_rocket, thrust,
mass_rocket, dt)`: one explicit Euler step
`r_new = 0.5*a*dt**2 + v*dt + r`, `v_new = a*dt + v`, where `a` comes from
`d2x_dt2` (hence `none` when its assertions fail). -/
def integrate (v_rocket mass_planet r_rocket thrust mass_rocket dt : ℚ) :
    Option (ℚ × ℚ) :=
  match d2x_dt2 mass_planet r_rocket mass_rocket thrust with
  | none => none
  | some a_rocket =>
      some (1 / 2 * a_rocket * dt ^ 2 + v_rocket * dt + r_rocket,
            a_rocket * dt + v_rocket)

/-- Cost values produced by the cost functions: a finite float (embedded as a
rational) or `np.inf`. -/
inductive Cost where
  | val : ℚ → Cost
  | inf : Cost
deriving DecidableEq, Repr

/-- IEEE-style addition on cost values: `inf` absorbs. -/
def Cost.add : Cost → Cost → Cost
  | .inf, _ => .inf
  | _, .inf => .inf
  | .val a, .val b => .val (a + b)

/-- Embedding of `cost_function.soft_landing(r_planet, r_rocket, v_rocket, t,
tf, eps)`.  The source sets `cost = 0.0`, and when `t >= tf` replaces it by
`v_rocket**2` if `-eps <= (r_rocket - r_planet) < eps`, else by `np.inf`. -/
def soft_landing (r_planet r_rocket v_rocket t tf eps : ℚ) : Cost :=
  if tf ≤ t then
    if -eps ≤ r_rocket - r_planet ∧ r_rocket - r_planet < eps then
      .val (v_rocket ^ 2)
    else
      .inf
  else
    .val 0

/-- Embedding of `cost_function.quickest_time(r_planet, r_rocket, v_rocket, t,
tf, eps)`.  The source sets `cost = t**2`, and when `t >= tf` replaces it by
`v_rocket**2 + t**2` if `-eps <= (r_rocket - r_planet) < eps`, else `np.inf`. -/
def quickest_time (r_planet r_rocket v_rocket t tf eps : ℚ) : Cost :=
  if tf ≤ t then
    if -eps ≤ r_rocket - r_planet ∧ r_rocket - r_planet < eps then
      .val (v_rocket ^ 2 + t ^ 2)
    else
      .inf
  else
    .val (t ^ 2)

/-- C2: for positive radius and mass, `integrate` returns exactly
`(r + v·dt + ½·a·dt², v + a·dt)` with `a = -G·M/r² + thrust/m`,
`G = 6.6743e-11`. -/
theorem integrate_euler_step (v M r thr m dt : ℚ) (hr : 0 < r) (hm : 0 < m) :
    integrate v M r thr m dt =
      some (r + v * dt + 1 / 2 * (-(66743 / 10 ^ 15) * M / r ^ 2 + thr / m) * dt ^ 2,
            v + (-(66743 / 10 ^ 15) * M / r ^ 2 + thr / m) * dt) := by
  simp only [integrate, d2x_dt2, grav_const, if_pos (And.intro hr hm)]
  exact congrArg some (Prod.ext (by ring) (by ring))

/-- Witness for C2 at `v = 3`, `M = 10^22`, `r = 2`, `thrust = 5`, `m = 4`,
`dt = 1`. -/
theorem integrate_euler_step_witness :
    (0 : ℚ) < 2 ∧ (0 : ℚ) < 4 ∧
      integrate 3 (10 ^ 22) 2 5 4 1 =
        some (2 + 3 * 1 + 1 / 2 * (-(66743 / 10 ^ 15) * 10 ^ 22 / 2 ^ 2 + 5 / 4) * 1 ^ 2,
              3 + (-(66743 / 10 ^ 15) * 10 ^ 22 / 2 ^ 2 + 5 / 4) * 1) :=
  ⟨by norm_num, by norm_num,
    integrate_euler_step 3 (10 ^ 22) 2 5 4 1 (by norm_num) (by norm_num)⟩

/-- C7: `d2x_dt2` aborts (returns `none`, the embedding of an assertion-style
failure) if and only if `r_rocket ≤ 0` or `mass_rocket ≤ 0`, for every planet
mass and thrust; for positive radius and mass it succeeds. -/
theorem d2x_dt2_abort_iff (M r m thr : ℚ) :
    d2x_dt2 M r m thr = none ↔ (r ≤ 0 ∨ m ≤ 0) := by
  unfold d2x_dt2
  by_cases h : 0 < r ∧ 0 < m
  · simp [h, not_or, not_le, h.1, h.2]
  · have h' : r ≤ 0 ∨ m ≤ 0 := by
      rcases not_and_or.mp h with h1 | h1
      · exact Or.inl (not_lt.mp h1)
      · exact Or.inr (not_lt.mp h1)
    simp [h, h']

/-- C6: `quickest_time` is `soft_landing` plus `t²` in the extended values:
the running `t²` penalty is added at every non-terminal stage, `t²` is added
to the terminal landing cost, and the infeasible terminal branch stays `inf`
(absorbing addition). -/
theorem quickest_time_eq_soft_landing_add_t_sq
    (r_planet r_rocket v_rocket t tf eps : ℚ) :
    quickest_time r_planet r_rocket v_rocket t tf eps =
      Cost.add (soft_landing r_planet r_rocket v_rocket t tf eps)
        (.val (t ^ 2)) := by
  unfold quickest_time soft_landing
  by_cases h1 : tf ≤ t
  · rw [if_pos h1, if_pos h1]
    by_cases h2 : -eps ≤ r_rocket - r_planet ∧ r_rocket - r_planet < eps
    · rw [if_pos h2, if_pos h2]; rfl
    · rw [if_neg h2, if_neg h2]; rfl
  · rw [if_neg h1, if_neg h1]
    show Cost.val (t ^ 2) = Cost.val (0 + t ^ 2)
    rw [zero_add]

/-- C9: with the default tolerance `eps = 0`, both cost functions return `inf`
at every terminal stage (`t ≥ tf`), whatever the altitude and velocity: the
landing window `-eps ≤ r_rocket - r_planet < eps` is empty at `eps = 0`. -/
theorem terminal_inf_at_eps_zero (r_planet r_rocket v_rocket t tf : ℚ)
    (h : tf ≤ t) :
    soft_landing r_planet r_rocket v_rocket t tf 0 = .inf ∧
      quickest_time r_planet r_rocket v_rocket t tf 0 = .inf := by
  have hwin : ¬(-(0 : ℚ) ≤ r_rocket - r_planet ∧ r_rocket - r_planet < 0) := by
    rintro ⟨h1, h2⟩
    rw [neg_zero] at h1
    exact absurd h2 (not_lt.mpr h1)
  constructor
  · unfold soft_landing
    simp [h, hwin]
  · unfold quickest_time
    simp [h, hwin]

/-- Witness for C9 at `r_planet = 5`, `r_rocket = 5`, `v = 7`, `t = 3`,
`tf = 2` (rocket exactly at the surface, and still `inf`). -/
theorem terminal_inf_at_eps_zero_witness :
    (2 : ℚ) ≤ 3 ∧
      (soft_landing 5 5 7 3 2 0 = .inf ∧ quickest_time 5 5 7 3 2 0 = .inf) :=
  ⟨by norm_num, terminal_inf_at_eps_zero 5 5 7 3 2 (by norm_num)⟩

/-- C3 counterexample: the claim predicates the landed branch on
`|r_rocket - r_planet| < eps`, but the source tests `-eps ≤ d < eps`.
At `r_planet = 1`, `r_rocket = 0`, `eps = 1`, `t = tf = 0`, `v = 3` we have
`d = -eps`, so `|d| < eps` is false (the claim predicts `inf`), yet the code
takes the landed branch and returns `v² = 9`. -/
theorem soft_landing_claim_counterexample :
    ¬(|(0 : ℚ) - 1| < 1) ∧ soft_landing 1 0 3 0 0 1 = .val 9 ∧
      soft_landing 1 0 3 0 0 1 ≠ .inf := by
  have h : soft_landing 1 0 3 0 0 1 = .val 9 := by
    unfold soft_landing
    norm_num
  exact ⟨by norm_num, h, by rw [h]; exact fun hc => Cost.noConfusion hc⟩

/-- C3 amended: `soft_landing` returns `v²` when `t ≥ tf` and the half-open
window `-eps ≤ r_rocket - r_planet < eps` holds (lower boundary included),
`inf` when `t ≥ tf` and the window fails, and `0` whenever `t < tf`. -/
theorem soft_landing_cases (r_planet r_rocket v_rocket t tf eps : ℚ) :
    (tf ≤ t → -eps ≤ r_rocket - r_planet → r_rocket - r_planet < eps →
        soft_landing r_planet r_rocket v_rocket t tf eps = .val (v_rocket ^ 2)) ∧
    (tf ≤ t → ¬(-eps ≤ r_rocket - r_planet ∧ r_rocket - r_planet < eps) →
        soft_landing r_planet r_rocket v_rocket t tf eps = .inf) ∧
    (t < tf → soft_landing r_planet r_rocket v_rocket t tf eps = .val 0) := by
  unfold soft_landing
  refine ⟨fun h1 h2 h3 => ?_, fun h1 h2 => ?_, fun h1 => ?_⟩
  · rw [if_pos h1, if_pos ⟨h2, h3⟩]
  · rw [if_pos h1, if_neg h2]
  · rw [if_neg (not_le.mpr h1)]

/-- Witness for C3's amended theorem: all three branches discharged at
concrete inputs (`r_planet = 1`, `v = 3`, `tf = 5`, `eps = 1`). -/
theorem soft_landing_cases_witness :
    soft_landing 1 1 3 5 5 1 = .val (3 ^ 2) ∧
      soft_landing 1 9 3 5 5 1 = .inf ∧
      soft_landing 1 1 3 4 5 1 = .val 0 :=
  ⟨(soft_landing_cases 1 1 3 5 5 1).1 (by norm_num) (by norm_num) (by norm_num),
   (soft_landing_cases 1 9 3 5 5 1).2.1 (by norm_num) (by norm_num),
   (soft_landing_cases 1 1 3 4 5 1).2.2 (by norm_num)⟩

/-- The list `[v0, v0 + dx, …, v0 + (n-1)·dx]`: the common shape of every
evenly spaced coordinate vector in the solver, and the value of
`np.arange` below. -/
def gridList (v0 dx : ℚ) (n : ℕ) : List ℚ :=
  (List.range n).map (fun i : ℕ => v0 + (i : ℚ) * dx)

/-- Embedding of `np.arange(start, stop, step)` for a positive step: the
elements `start + i*step` for `i < ⌈(stop - start)/step⌉` (empty when the
ceiling is not positive). -/
def arange (start stop step : ℚ) : List ℚ :=
  gridList start step (⌈(stop - start) / step⌉.toNat)

/-- Embedding of `solver.get_index(x_vector, x)`: asserts `x ≥ x_vector[0]`
and `x_vector.shape[0] > 1` (abort embedded as `none`; an empty vector's
index error likewise), then returns
`min(len(x_vector), ⌊(x - x_vector[0]) / (x_vector[1] - x_vector[0])⌋)`. -/
def get_index (x_vector : List ℚ) (x : ℚ) : Option ℤ :=
  match x_vector with
  | x0 :: x1 :: rest =>
      if x0 ≤ x then
        some (min ((x0 :: x1 :: rest).length : ℤ) ⌊(x - x0) / (x1 - x0)⌋)
      else
        none
  | _ => none

/-- Embedding of `solver.create_r_vector(r_planet, r0, dr)`:
`np.arange(r_planet, r0 + dr, dr)`. -/
def create_r_vector (r_planet r0 dr : ℚ) : List ℚ :=
  arange r_planet (r0 + dr) dr

theorem gridList_length (v0 dx : ℚ) (n : ℕ) : (gridList v0 dx n).length = n := by
  simp [gridList]

theorem gridList_succ (v0 dx : ℚ) (n : ℕ) :
    gridList v0 dx (n + 1) = v0 :: gridList (v0 + dx) dx n := by
  unfold gridList
  rw [List.range_succ_eq_map, List.map_cons, List.map_map]
  refine congrArg₂ _ (by norm_num) (List.map_congr_left fun i _ => ?_)
  simp only [Function.comp_apply]
  push_cast
  ring

theorem gridList_concat (v0 dx : ℚ) (n : ℕ) :
    gridList v0 dx (n + 1) = gridList v0 dx n ++ [v0 + n * dx] := by
  unfold gridList
  rw [List.range_succ, List.map_append, List.map_cons, List.map_nil]

theorem gridList_getLast? (v0 dx : ℚ) (n : ℕ) :
    (gridList v0 dx (n + 1)).getLast? = some (v0 + n * dx) := by
  rw [gridList_concat, List.getLast?_concat]

theorem gridList_getD (v0 dx : ℚ) (n i : ℕ) (h : i < n) :
    (gridList v0 dx n).getD i 0 = v0 + i * dx := by
  have hlen : i < (gridList v0 dx n).length := by rwa [gridList_length]
  rw [List.getD_eq_getElem?_getD, List.getElem?_eq_getElem hlen]
  simp [gridList]

theorem get_index_gridList (v0 dx : ℚ) (n : ℕ) (x : ℚ) (hn : 2 ≤ n)
    (hx : v0 ≤ x) :
    get_index (gridList v0 dx n) x = some (min (n : ℤ) ⌊(x - v0) / dx⌋) := by
  obtain ⟨m, rfl⟩ : ∃ m, n = m + 2 := ⟨n - 2, by omega⟩
  rw [show m + 2 = (m + 1) + 1 from rfl, gridList_succ, gridList_succ]
  show (if v0 ≤ x then
      some (min ((v0 :: (v0 + dx) :: gridList (v0 + dx + dx) dx m).length : ℤ)
        ⌊(x - v0) / (v0 + dx - v0)⌋)
    else none) = some (min ((m + 1 + 1 : ℕ) : ℤ) ⌊(x - v0) / dx⌋)
  have hlen : (v0 :: (v0 + dx) :: gridList (v0 + dx + dx) dx m).length = m + 2 := by
    simp [gridList_length]
  rw [if_pos hx, hlen, add_sub_cancel_left]

/-- C1 counterexample: on `V = [0, 1, 2]` (strictly increasing, uniform step
`1`, length `3`) and `x = 5/2 > V[-1] = 2`, `get_index` returns `2` (the last
valid index), not `len(V) = 3` as the claim's off-grid clause states: the
clamp `min(len, ⌊(x - V[0])/step⌋)` only reaches `len` once
`x ≥ V[0] + len·step`. -/
theorem get_index_off_grid_counterexample :
    (gridList 0 1 3).getLast? = some 2 ∧ (2 : ℚ) < 5 / 2 ∧
      (gridList 0 1 3).length = 3 ∧
      get_index (gridList 0 1 3) (5 / 2) = some 2 ∧ (2 : ℤ) ≠ 3 := by
  refine ⟨?_, by norm_num, by rw [gridList_length], ?_, by decide⟩
  · have h := gridList_getLast? 0 1 2
    norm_num at h
    exact h
  · rw [get_index_gridList 0 1 3 (5 / 2) (by norm_num) (by norm_num)]
    have hfl : ⌊((5 : ℚ) / 2 - 0) / 1⌋ = 2 := by
      rw [Int.floor_eq_iff]
      norm_num
    rw [hfl]
    norm_num

/-- C1 amended: on a strictly increasing uniform grid of length `n ≥ 2`,
`get_index` returns `min(n, ⌊(x - V[0])/step⌋)` for every `x ≥ V[0]`; in
particular it returns `i` at `x = V[i]`, the lower neighbour's index for `x`
strictly between adjacent grid points, and the off-grid sentinel `n` exactly
for `x ≥ V[0] + n·step` (one full step beyond the last element, not for every
`x > V[-1]`). -/
theorem get_index_uniform_grid (v0 dx : ℚ) (n : ℕ) (hdx : 0 < dx)
    (hn : 2 ≤ n) :
    (∀ x : ℚ, v0 ≤ x →
        get_index (gridList v0 dx n) x = some (min (n : ℤ) ⌊(x - v0) / dx⌋)) ∧
    (∀ i : ℕ, i < n →
        get_index (gridList v0 dx n) (v0 + (i : ℚ) * dx) = some (i : ℤ)) ∧
    (∀ i : ℕ, ∀ x : ℚ, i + 1 < n → v0 + (i : ℚ) * dx < x →
        x < v0 + ((i : ℚ) + 1) * dx →
        get_index (gridList v0 dx n) x = some (i : ℤ)) ∧
    (∀ x : ℚ, v0 + (n : ℚ) * dx ≤ x →
        get_index (gridList v0 dx n) x = some (n : ℤ)) := by
  have hdx' : dx ≠ 0 := ne_of_gt hdx
  refine ⟨fun x hx => get_index_gridList v0 dx n x hn hx, ?_, ?_, ?_⟩
  · intro i hi
    have h0 : (0 : ℚ) ≤ (i : ℚ) * dx := mul_nonneg (Nat.cast_nonneg i) hdx.le
    rw [get_index_gridList v0 dx n _ hn (by linarith)]
    have h1 : (v0 + (i : ℚ) * dx - v0) / dx = (i : ℚ) := by
      field_simp
    rw [h1, Int.floor_natCast]
    exact congrArg some (min_eq_right (by exact_mod_cast hi.le))
  · intro i x hi hlo hhi
    have h0 : (0 : ℚ) ≤ (i : ℚ) * dx := mul_nonneg (Nat.cast_nonneg i) hdx.le
    have hx : v0 ≤ x := le_of_lt (lt_of_le_of_lt (by linarith) hlo)
    rw [get_index_gridList v0 dx n x hn hx]
    have hfl : ⌊(x - v0) / dx⌋ = (i : ℤ) := by
      rw [Int.floor_eq_iff]
      constructor
      · rw [le_div_iff₀ hdx]
        push_cast
        linarith
      · rw [div_lt_iff₀ hdx]
        push_cast
        linarith
    rw [hfl]
    exact congrArg some (min_eq_right (by exact_mod_cast (by omega : i ≤ n)))
  · intro x hx2
    have h0 : (0 : ℚ) ≤ (n : ℚ) * dx := mul_nonneg (Nat.cast_nonneg n) hdx.le
    rw [get_index_gridList v0 dx n x hn (by linarith)]
    have hfl : (n : ℤ) ≤ ⌊(x - v0) / dx⌋ := by
      rw [Int.le_floor]
      rw [le_div_iff₀ hdx]
      push_cast
      linarith
    exact congrArg some (min_eq_left hfl)

/-- Witness for C1's amended theorem on `V = [0, 1, 2]`: the clamped formula
at `x = 5/2`, the exact-index case at `i = 1`, and the sentinel case at
`x = 7 ≥ 0 + 3·1`. -/
theorem get_index_uniform_grid_witness :
    get_index (gridList 0 1 3) (5 / 2) =
        some (min ((3 : ℕ) : ℤ) ⌊((5 : ℚ) / 2 - 0) / 1⌋) ∧
      get_index (gridList 0 1 3) (0 + (1 : ℚ) * 1) = some ((1 : ℕ) : ℤ) ∧
      get_index (gridList 0 1 3) 7 = some ((3 : ℕ) : ℤ) :=
  ⟨(get_index_uniform_grid 0 1 3 (by norm_num) (by norm_num)).1 (5 / 2)
      (by norm_num),
   (get_index_uniform_grid 0 1 3 (by norm_num) (by norm_num)).2.1 1
      (by norm_num),
   (get_index_uniform_grid 0 1 3 (by norm_num) (by norm_num)).2.2.2 7
      (by norm_num)⟩

/-- C5: for `r_planet < r0` and `dr > 0`, `create_r_vector` starts at
`r_planet`, has consecutive differences `dr`, and its last element lies in
`[r0, r0 + dr)`. -/
theorem create_r_vector_spec (r_planet r0 dr : ℚ) (h0 : r_planet < r0)
    (hdr : 0 < dr) :
    (create_r_vector r_planet r0 dr).head? = some r_planet ∧
    (∀ i : ℕ, i + 1 < (create_r_vector r_planet r0 dr).length →
        (create_r_vector r_planet r0 dr).getD (i + 1) 0 =
          (create_r_vector r_planet r0 dr).getD i 0 + dr) ∧
    (∃ last, (create_r_vector r_planet r0 dr).getLast? = some last ∧
        r0 ≤ last ∧ last < r0 + dr) := by
  have hdr' : dr ≠ 0 := ne_of_gt hdr
  set q : ℚ := (r0 - r_planet) / dr with hq
  have hqpos : 0 < q := div_pos (by linarith) hdr
  have hceil : (1 : ℤ) ≤ ⌈q⌉ := Int.ceil_pos.mpr hqpos
  have hstop : (r0 + dr - r_planet) / dr = q + 1 := by
    rw [hq]
    field_simp
    ring
  have hn : ⌈(r0 + dr - r_planet) / dr⌉ = ⌈q⌉ + 1 := by
    rw [hstop, Int.ceil_add_one]
  set m : ℕ := ⌈q⌉.toNat with hm
  have hmz : (m : ℤ) = ⌈q⌉ := Int.toNat_of_nonneg (by omega)
  have hnat : ⌈(r0 + dr - r_planet) / dr⌉.toNat = m + 1 := by
    rw [hn]
    omega
  have hlist : create_r_vector r_planet r0 dr = gridList r_planet dr (m + 1) := by
    unfold create_r_vector arange
    rw [hnat]
  have hmq : ((m : ℚ)) = ((⌈q⌉ : ℤ) : ℚ) := by exact_mod_cast congrArg Int.cast hmz
  have hqdr : q * dr = r0 - r_planet := div_mul_cancel₀ _ hdr'
  refine ⟨?_, ?_, ?_⟩
  · rw [hlist, gridList_succ, List.head?_cons]
  · intro i hi
    rw [hlist] at hi ⊢
    rw [gridList_length] at hi
    rw [gridList_getD _ _ _ _ (by omega), gridList_getD _ _ _ _ (by omega)]
    push_cast
    ring
  · refine ⟨r_planet + m * dr, ?_, ?_, ?_⟩
    · rw [hlist, gridList_getLast?]
    · have h1 : q ≤ (m : ℚ) := by
        rw [hmq]
        exact Int.le_ceil q
      nlinarith [mul_le_mul_of_nonneg_right h1 hdr.le]
    · have h1 : (m : ℚ) < q + 1 := by
        rw [hmq]
        exact Int.ceil_lt_add_one q
      nlinarith [mul_lt_mul_of_pos_right h1 hdr]

/-- Witness for C5 at the spec's own instance `r_planet = 1e6`, `r0 = 2.3e6`,
`dr = 1e5`: starts at `1e6`, last element in `[2.3e6, 2.4e6)`. -/
theorem create_r_vector_spec_witness :
    (create_r_vector (10 ^ 6) (23 * 10 ^ 5) (10 ^ 5)).head? = some (10 ^ 6) ∧
      ∃ last, (create_r_vector (10 ^ 6) (23 * 10 ^ 5) (10 ^ 5)).getLast? =
          some last ∧ 23 * 10 ^ 5 ≤ last ∧ last < 23 * 10 ^ 5 + 10 ^ 5 :=
  ⟨(create_r_vector_spec (10 ^ 6) (23 * 10 ^ 5) (10 ^ 5) (by norm_num)
      (by norm_num)).1,
   (create_r_vector_spec (10 ^ 6) (23 * 10 ^ 5) (10 ^ 5) (by norm_num)
      (by norm_num)).2.2⟩

/-- Evaluation of `Nat.sqrt` from the bracketing `s² ≤ m < (s+1)²`. -/
theorem natSqrt_eq (m s : ℕ) (h1 : s * s ≤ m) (h2 : m < (s + 1) * (s + 1)) :
    Nat.sqrt m = s := by
  have ha := Nat.le_sqrt.mpr h1
  have hb := Nat.sqrt_lt.mpr h2
  omega

/-- Exact model of the float pipeline `np.sqrt(q).round()` on a nonnegative
rational `q` (floats idealized as exact reals): the integer nearest to `√q`,
ties rounded to even.  For a non-tie, `round(√q) = ⌊√q + 1/2⌋ =
(⌊√(4q)⌋ + 1) / 2` with `⌊√(4q)⌋ = Nat.sqrt ⌊4q⌋`; a tie means `√q = s/2`
with `s` odd (detected by `(s/2)² = q`), and then the even one of the two
neighbouring integers `(s±1)/2` is chosen. -/
def sqrtRound (q : ℚ) : ℕ :=
  if Nat.sqrt ⌊4 * q⌋.toNat % 2 = 1 ∧ ((Nat.sqrt ⌊4 * q⌋.toNat : ℚ) / 2) ^ 2 = q
  then
    if (Nat.sqrt ⌊4 * q⌋.toNat + 1) / 2 % 2 = 0 then
      (Nat.sqrt ⌊4 * q⌋.toNat + 1) / 2
    else
      (Nat.sqrt ⌊4 * q⌋.toNat - 1) / 2
  else
    (Nat.sqrt ⌊4 * q⌋.toNat + 1) / 2

/-- Embedding of `solver.create_v_vector(mass_rocket, mass_planet, r0,
r_planet)`: zero-thrust acceleration from `d2x_dt2` (abort propagated as
`none`), `approx_potential_energy = |2·m·a·(r0 - r_planet)|`,
`max_speed = np.sqrt(2·E/m).round()`, result
`np.arange(-max_speed, max_speed, 1)`.  The source binds `max_speed` once and
uses it twice; it is inlined here. -/
def create_v_vector (mass_rocket mass_planet r0 r_planet : ℚ) :
    Option (List ℚ) :=
  match d2x_dt2 mass_planet r0 mass_rocket 0 with
  | none => none
  | some a_rocket =>
      some (arange
        (-(sqrtRound (2 * |2 * mass_rocket * a_rocket * (r0 - r_planet)| /
            mass_rocket) : ℕ))
        ((sqrtRound (2 * |2 * mass_rocket * a_rocket * (r0 - r_planet)| /
            mass_rocket) : ℕ))
        1)

/-- For a natural `s`, `np.arange(-s, s, 1)` is the unit grid of length `2s`
starting at `-s` (so it stops at `s - 1`, excluding `s`). -/
theorem arange_symm_unit (s : ℕ) :
    arange (-(s : ℚ)) (s : ℚ) 1 = gridList (-(s : ℚ)) 1 (2 * s) := by
  unfold arange
  have h1 : ((s : ℚ) - -(s : ℚ)) / 1 = ((2 * s : ℕ) : ℚ) := by
    push_cast
    ring
  rw [h1, Int.ceil_natCast, Int.toNat_ofNat]

/-- C4 counterexample: with `mass_rocket = 2`, `mass_planet = 10^15/66743`
(so that `G·M = 1`), `r0 = 1`, `r_planet = 0`, the zero-thrust acceleration is
`a = -1`, the energy bound is `E = |2·2·(-1)·1| = 4`, and the claim's
`v_max = sqrt(2·E/m) = sqrt(4) = 2`.  The code returns
`np.arange(-2, 2, 1) = [-2, -1, 0, 1]`, which does not include `v_max = 2`:
the range is half-open, not inclusive. -/
theorem create_v_vector_claim_counterexample :
    ((2 : ℚ) ^ 2 = 2 * |2 * 2 * (-1 : ℚ) * (1 - 0)| / 2) ∧
      create_v_vector 2 (10 ^ 15 / 66743) 1 0 = some [-2, -1, 0, 1] ∧
      (2 : ℚ) ∉ [(-2 : ℚ), -1, 0, 1] := by
  refine ⟨by norm_num, ?_, by norm_num⟩
  have ha : d2x_dt2 (10 ^ 15 / 66743) 1 2 0 = some (-1) := by
    unfold d2x_dt2 grav_const
    norm_num
  unfold create_v_vector
  rw [ha]
  show some (arange (-(sqrtRound (2 * |2 * 2 * (-1 : ℚ) * (1 - 0)| / 2) : ℕ))
      ((sqrtRound (2 * |2 * 2 * (-1 : ℚ) * (1 - 0)| / 2) : ℕ)) 1) =
    some [-2, -1, 0, 1]
  have hE : 2 * |2 * (2 : ℚ) * (-1) * (1 - 0)| / 2 = 4 := by norm_num
  rw [hE]
  have hfl : ⌊(4 : ℚ) * 4⌋ = 16 := by
    rw [Int.floor_eq_iff]
    norm_num
  have hsq : Nat.sqrt ((16 : ℤ)).toNat = 4 := by
    rw [show ((16 : ℤ)).toNat = 16 from rfl]
    exact natSqrt_eq 16 4 (by norm_num) (by norm_num)
  have hs : sqrtRound 4 = 2 := by
    unfold sqrtRound
    rw [hfl, hsq]
    norm_num
  rw [hs]
  have har : arange (-((2 : ℕ) : ℚ)) ((2 : ℕ) : ℚ) 1 =
      gridList (-((2 : ℕ) : ℚ)) 1 4 := by
    rw [arange_symm_unit 2]
  rw [har]
  rw [show (4 : ℕ) = 3 + 1 from rfl, gridList_succ,
    show (3 : ℕ) = 2 + 1 from rfl, gridList_succ,
    show (2 : ℕ) = 1 + 1 from rfl, gridList_succ,
    show (1 : ℕ) = 0 + 1 from rfl, gridList_succ]
  norm_num [gridList]

/-- C4 amended: for `r0 > 0` and `mass_rocket > 0`, `create_v_vector` derives
the zero-thrust acceleration `a = -G·M/r0² + 0/m` at `r0`, the energy bound
`E = |2·m·a·(r0 - r_planet)|`, and `v_max = round(sqrt(2·E/m))` (the nearest
integer, ties to even) — and returns the unit-step uniform sequence of length
`2·v_max` starting at `-v_max`, whose last element is `v_max - 1`: the upper
endpoint `v_max` itself is excluded (half-open `np.arange` range). -/
theorem create_v_vector_structure (mass_rocket mass_planet r0 r_planet : ℚ)
    (hr : 0 < r0) (hm : 0 < mass_rocket) :
    ∃ vmax : ℕ,
      (vmax = sqrtRound (2 * |2 * mass_rocket *
          (-(66743 / 10 ^ 15) * mass_planet / r0 ^ 2 + 0 / mass_rocket) *
          (r0 - r_planet)| / mass_rocket)) ∧
      create_v_vector mass_rocket mass_planet r0 r_planet =
        some (gridList (-(vmax : ℚ)) 1 (2 * vmax)) ∧
      (0 < vmax →
        (gridList (-(vmax : ℚ)) 1 (2 * vmax)).getLast? =
          some ((vmax : ℚ) - 1)) := by
  have ha : d2x_dt2 mass_planet r0 mass_rocket 0 =
      some (-(66743 / 10 ^ 15) * mass_planet / r0 ^ 2 + 0 / mass_rocket) := by
    unfold d2x_dt2 grav_const
    rw [if_pos (And.intro hr hm)]
  refine ⟨sqrtRound (2 * |2 * mass_rocket *
      (-(66743 / 10 ^ 15) * mass_planet / r0 ^ 2 + 0 / mass_rocket) *
      (r0 - r_planet)| / mass_rocket), rfl, ?_, ?_⟩
  · unfold create_v_vector
    rw [ha]
    show some (arange (-(sqrtRound (2 * |2 * mass_rocket *
          (-(66743 / 10 ^ 15) * mass_planet / r0 ^ 2 + 0 / mass_rocket) *
          (r0 - r_planet)| / mass_rocket) : ℕ))
        ((sqrtRound (2 * |2 * mass_rocket *
          (-(66743 / 10 ^ 15) * mass_planet / r0 ^ 2 + 0 / mass_rocket) *
          (r0 - r_planet)| / mass_rocket) : ℕ)) 1) = _
    rw [arange_symm_unit]
  · intro hpos
    obtain ⟨k, hk⟩ : ∃ k, 2 * sqrtRound (2 * |2 * mass_rocket *
        (-(66743 / 10 ^ 15) * mass_planet / r0 ^ 2 + 0 / mass_rocket) *
        (r0 - r_planet)| / mass_rocket) = k + 1 :=
      ⟨2 * sqrtRound (2 * |2 * mass_rocket *
        (-(66743 / 10 ^ 15) * mass_planet / r0 ^ 2 + 0 / mass_rocket) *
        (r0 - r_planet)| / mass_rocket) - 1, by omega⟩
    rw [hk, gridList_getLast?]
    have hkq : (k : ℚ) = 2 * (sqrtRound (2 * |2 * mass_rocket *
        (-(66743 / 10 ^ 15) * mass_planet / r0 ^ 2 + 0 / mass_rocket) *
        (r0 - r_planet)| / mass_rocket) : ℚ) - 1 := by
      have := congrArg (fun n : ℕ => (n : ℚ)) hk
      push_cast at this
      linarith
    rw [hkq]
    exact congrArg some (by ring)

/-- Witness for C4's amended theorem at `mass_rocket = 2`,
`mass_planet = 10^15/66743`, `r0 = 1`, `r_planet = 0` (where `v_max = 2`). -/
theorem create_v_vector_structure_witness :
    (0 : ℚ) < 1 ∧ (0 : ℚ) < 2 ∧
      ∃ vmax : ℕ,
        (vmax = sqrtRound (2 * |2 * 2 *
            (-(66743 / 10 ^ 15) * (10 ^ 15 / 66743) / 1 ^ 2 + 0 / 2) *
            (1 - 0)| / 2)) ∧
        create_v_vector 2 (10 ^ 15 / 66743) 1 0 =
          some (gridList (-(vmax : ℚ)) 1 (2 * vmax)) ∧
        (0 < vmax →
          (gridList (-(vmax : ℚ)) 1 (2 * vmax)).getLast? =
            some ((vmax : ℚ) - 1)) :=
  ⟨by norm_num, by norm_num,
    create_v_vector_structure 2 (10 ^ 15 / 66743) 1 0 (by norm_num)
      (by norm_num)⟩

/-- One array-cell assignment performed by `populate_state_map`: which of the
four output tables (`r_prediction_map`, `v_prediction_map`,
`r_predicted_indices`, `v_predicted_indices`), the `[k, i, j]` cell, and the
stored value. -/
inductive Write where
  | rPred (k i j : ℕ) (value : ℚ)
  | vPred (k i j : ℕ) (value : ℚ)
  | rIdx (k i j : ℕ) (value : ℤ)
  | vIdx (k i j : ℕ) (value : ℤ)
deriving DecidableEq, Repr

/-- The writes of one iteration of `populate_state_map`'s innermost loop body,
in source order: `integrate`, then the two prediction-map writes, then the two
`get_index` calls with their index writes.  An assertion abort (`none` from
`integrate` or `get_index`) yields `error` carrying exactly the writes already
performed in this iteration. -/
def cellWrites (r_vector v_vector : List ℚ)
    (r v thr mass_planet mass_rocket dt : ℚ) (k i j : ℕ) :
    Except (List Write) (List Write) :=
  match integrate v mass_planet r thr mass_rocket dt with
  | none => .error []
  | some new_state =>
      match get_index r_vector new_state.1 with
      | none => .error [.rPred k i j new_state.1, .vPred k i j new_state.2]
      | some ridx =>
          match get_index v_vector new_state.2 with
          | none => .error [.rPred k i j new_state.1,
              .vPred k i j new_state.2, .rIdx k i j ridx]
          | some vidx => .ok [.rPred k i j new_state.1,
              .vPred k i j new_state.2, .rIdx k i j ridx, .vIdx k i j vidx]

/-- Runs the loop iterations in order, concatenating write logs; an abort
(`error`) stops the loop, keeping the writes performed up to that point. -/
def runCells (f : ℕ → ℕ → ℕ → Except (List Write) (List Write)) :
    List (ℕ × ℕ × ℕ) → Except (List Write) (List Write)
  | [] => .ok []
  | (i, j, k) :: rest =>
      match f i j k with
      | .error ws => .error ws
      | .ok ws =>
          match runCells f rest with
          | .error ws2 => .error (ws ++ ws2)
          | .ok ws2 => .ok (ws ++ ws2)

/-- The `(i, j, k)` triples visited by the triple loop
`for i … for j … for k`, in execution order. -/
def cellList (I J K : ℕ) : List (ℕ × ℕ × ℕ) :=
  (List.range I).flatMap (fun i =>
    (List.range J).flatMap (fun j =>
      (List.range K).map (fun k => (i, j, k))))

/-- Embedding of `solver.populate_state_map(r_prediction_map, …, r_vector,
v_vector, thrust_vector, mass_planet, mass_rocket, dt)`.  The mutation of the
four output arrays is embedded as the ordered log of writes: `ok log` is a
normal return after performing `log`, `error log` is an assertion abort after
performing only `log` (the tables are left partially populated). -/
def populate_state_map (r_vector v_vector thrust_vector : List ℚ)
    (mass_planet mass_rocket dt : ℚ) : Except (List Write) (List Write) :=
  runCells
    (fun i j k =>
      cellWrites r_vector v_vector (r_vector.getD i 0) (v_vector.getD j 0)
        (thrust_vector.getD k 0) mass_planet mass_rocket dt k i j)
    (cellList r_vector.length v_vector.length thrust_vector.length)

theorem flatMap_const_nil {α β : Type} (l : List α) :
    (l.flatMap fun _ => ([] : List β)) = [] := by
  induction l with
  | nil => rfl
  | cons a t ih =>
      show ([] : List β) ++ t.flatMap (fun _ => ([] : List β)) = []
      rw [List.nil_append, ih]

/-- C8: with an empty thrust action set, `populate_state_map` returns
normally (`ok`) having performed no writes at all — it silently produces
untouched output tables instead of rejecting the degenerate action set with a
descriptive failure, for every axes pair and physical parameters. -/
theorem populate_state_map_empty_actions (r_vector v_vector : List ℚ)
    (mass_planet mass_rocket dt : ℚ) :
    populate_state_map r_vector v_vector [] mass_planet mass_rocket dt =
      .ok [] := by
  unfold populate_state_map cellList
  simp only [List.length_nil, List.range_zero, List.map_nil, flatMap_const_nil]
  rfl

/-- C10: `populate_state_map` does not clamp below-grid transitions.  With the
valid axes `r_vector = [1, 2]`, `v_vector = [0, 1]`, action set `[0]`,
`mass_planet = 10^15/66743` (so `G·M = 1`), `mass_rocket = 1`, `dt = 1`, the
very first grid state `(r, v) = (1, 0)` integrates to `(1/2, -1)`, whose
altitude `1/2` lies below `r_vector[0] = 1`; `get_index`'s precondition
assertion fires (`none`), and the call aborts after having written only the
two prediction-map cells — the four output tables are left partially
populated (2 of the 16 writes of a normal run), and nothing is mapped to a
boundary cell. -/
theorem populate_state_map_below_grid_abort :
    ((1 : ℚ) / 2 < 1) ∧
      get_index [(1 : ℚ), 2] (1 / 2) = none ∧
      populate_state_map [1, 2] [0, 1] [0] (10 ^ 15 / 66743) 1 1 =
        .error [.rPred 0 0 0 (1 / 2), .vPred 0 0 0 (-1)] ∧
      ∀ ws, populate_state_map [1, 2] [0, 1] [0] (10 ^ 15 / 66743) 1 1 ≠
        .ok ws := by
  have ha : d2x_dt2 (10 ^ 15 / 66743) 1 1 0 = some (-1) := by
    unfold d2x_dt2 grav_const
    norm_num
  have hint : integrate 0 (10 ^ 15 / 66743) 1 0 1 1 =
      some (1 / 2, -1) := by
    unfold integrate
    rw [ha]
    show some (1 / 2 * (-1) * 1 ^ 2 + 0 * 1 + 1, (-1) * 1 + 0) =
      some ((1 : ℚ) / 2, (-1 : ℚ))
    norm_num
  have hgr : get_index [(1 : ℚ), 2] (1 / 2) = none := by
    show (if (1 : ℚ) ≤ 1 / 2 then
        some (min (([(1 : ℚ), 2]).length : ℤ) ⌊((1 : ℚ) / 2 - 1) / (2 - 1)⌋)
      else none) = none
    rw [if_neg (by norm_num : ¬((1 : ℚ) ≤ 1 / 2))]
  have hcell : cellWrites [(1 : ℚ), 2] [(0 : ℚ), 1] 1 0 0 (10 ^ 15 / 66743)
      1 1 0 0 0 = .error [.rPred 0 0 0 (1 / 2), .vPred 0 0 0 (-1)] := by
    unfold cellWrites
    rw [hint]
    show (match get_index [(1 : ℚ), 2] (1 / 2) with
      | none => Except.error [Write.rPred 0 0 0 (1 / 2), Write.vPred 0 0 0 (-1)]
      | some ridx =>
          match get_index [(0 : ℚ), 1] (-1) with
          | none => Except.error [Write.rPred 0 0 0 (1 / 2),
              Write.vPred 0 0 0 (-1), Write.rIdx 0 0 0 ridx]
          | some vidx => Except.ok [Write.rPred 0 0 0 (1 / 2),
              Write.vPred 0 0 0 (-1), Write.rIdx 0 0 0 ridx,
              Write.vIdx 0 0 0 vidx]) =
      Except.error [Write.rPred 0 0 0 (1 / 2), Write.vPred 0 0 0 (-1)]
    rw [hgr]
  have hmain : populate_state_map [1, 2] [0, 1] [0] (10 ^ 15 / 66743) 1 1 =
      .error [.rPred 0 0 0 (1 / 2), .vPred 0 0 0 (-1)] := by
    unfold populate_state_map
    show (match cellWrites [(1 : ℚ), 2] [(0 : ℚ), 1] 1 0 0 (10 ^ 15 / 66743)
        1 1 0 0 0 with
      | Except.error ws => Except.error ws
      | Except.ok ws =>
          match runCells (fun i j k =>
              cellWrites [(1 : ℚ), 2] [(0 : ℚ), 1] ([(1 : ℚ), 2].getD i 0)
                ([(0 : ℚ), 1].getD j 0) ([(0 : ℚ)].getD k 0)
                (10 ^ 15 / 66743) 1 1 k i j)
              [(0, 1, 0), (1, 0, 0), (1, 1, 0)] with
          | Except.error ws2 => Except.error (ws ++ ws2)
          | Except.ok ws2 => Except.ok (ws ++ ws2)) =
      Except.error [Write.rPred 0 0 0 (1 / 2), Write.vPred 0 0 0 (-1)]
    rw [hcell]
  refine ⟨by norm_num, hgr, hmain, fun ws hws => ?_⟩
  rw [hmain] at hws
  exact Except.noConfusion hws
